import Mathlib

set_option maxRecDepth 4000

/-!
Shallow embedding of `src/utils/ai_agent_load_balancer.py`.

Python `dict[str, int]` is modelled as an association list with the first
binding for a key authoritative (`Dict.getD` mirrors `dict.get(k, d)`,
`Dict.set` mirrors `d[k] = v`: it overwrites the first binding in place,
otherwise appends, preserving insertion order exactly as CPython does).
Python `int` is `Int`.  Python `float` arithmetic in `calculate_utilization`
is idealised as exact rational arithmetic (`ℚ`); `int(x * 1.5)` and
`int(x * 0.7)` (truncation toward zero of an exact product) are idealised as
`Int.tdiv (3 * x) 2` and `Int.tdiv (7 * x) 10`.
The `datetime.now()` timestamp strings and the print statements are I/O and
do not influence any state or return value, so they are omitted; of
`current_workload` only the `"auto_scaling_ready"` entry is ever read by the
core, so it is modelled as one `Bool` field.
-/

namespace ALB

/-- Association-list model of a Python `dict[str, int]`. -/
abbrev Dict := List (String × Int)

/-- `d.get k default` of a Python dict: value of the first binding of `k`,
or the default when `k` is absent. -/
def Dict.getD : Dict → String → Int → Int
  | [], _, v => v
  | e :: d, k, v => if e.1 = k then e.2 else Dict.getD d k v

/-- `d[k] = v` of a Python dict: overwrite the first binding of `k` in
place, or append a new binding at the end. -/
def Dict.set : Dict → String → Int → Dict
  | [], k, v => [(k, v)]
  | e :: d, k, v => if e.1 = k then (k, v) :: d else e :: Dict.set d k v

/-- The keys of a dict, in insertion order. -/
def Dict.keys (d : Dict) : List String := d.map Prod.fst

/-- `sum(d.values())`. -/
def Dict.sumVals (d : Dict) : Int := (d.map Prod.snd).sum

/-- Apply `f` to every entry, keeping each key (models a Python loop
`for k in d: d[k] = f(k, d[k])`, which visits each key once). -/
def Dict.mapEntries (f : String × Int → Int) (d : Dict) : Dict :=
  d.map fun e => (e.1, f e)

/-- The `Task` dataclass.  The `start_time` / `end_time` timestamp strings
come from an external clock and affect nothing; they are omitted. -/
structure Task where
  name : String
  agents : Dict
  status : String
deriving DecidableEq

/-- The `AIAgentLoadBalancer` dataclass.  `auto_scaling_ready` is the only
entry of `current_workload` the core reads. -/
structure Balancer where
  agent_capacity : Dict
  agent_allocation : Dict
  auto_scaling_ready : Bool
  task_queue : List Task
  completed_tasks : List Task
deriving DecidableEq

/-- `__post_init__`: `agent_allocation = dict.fromkeys(agent_capacity, 0)`,
with empty task queue and history. -/
def Balancer.init (caps : Dict) (ready : Bool) : Balancer :=
  { agent_capacity := caps
    agent_allocation := Dict.mapEntries (fun _ => 0) caps
    auto_scaling_ready := ready
    task_queue := []
    completed_tasks := [] }

/-- `get_total_capacity`. -/
def get_total_capacity (s : Balancer) : Int :=
  Dict.sumVals s.agent_capacity

/-- `get_available_agents`. -/
def get_available_agents (s : Balancer) (agent_type : String) : Int :=
  max 0 (Dict.getD s.agent_capacity agent_type 0 - Dict.getD s.agent_allocation agent_type 0)

/-- `allocate_agent`: returns the Python boolean result together with the
updated state. -/
def allocate_agent (s : Balancer) (agent_type : String) (count : Int) :
    Bool × Balancer :=
  if count ≤ get_available_agents s agent_type then
    (true, { s with agent_allocation := Dict.set s.agent_allocation agent_type (Dict.getD s.agent_allocation agent_type 0 + count) })
  else
    (false, s)

/-- `release_agent`. -/
def release_agent (s : Balancer) (agent_type : String) (count : Int) :
    Balancer :=
  { s with agent_allocation := Dict.set s.agent_allocation agent_type (max 0 (Dict.getD s.agent_allocation agent_type 0 - count)) }

/-- `calculate_utilization`, with Python float division idealised as exact
rational division. -/
def calculate_utilization (s : Balancer) : ℚ :=
  let total_capacity := get_total_capacity s
  let total_allocated := Dict.sumVals s.agent_allocation
  if total_capacity = 0 then 0
  else (total_allocated : ℚ) / (total_capacity : ℚ) * 100

/-- `should_scale_up`. -/
def should_scale_up (s : Balancer) : Bool :=
  decide (80 < calculate_utilization s) && s.auto_scaling_ready

/-- `should_scale_down`. -/
def should_scale_down (s : Balancer) : Bool :=
  decide (calculate_utilization s < 30)

/-- `auto_scale`.  `int(c * 1.5)` is `Int.tdiv (3 * c) 2` and
`int(c * 0.7)` is `Int.tdiv (7 * c) 10` (truncation toward zero). -/
def auto_scale (s : Balancer) : Balancer :=
  if should_scale_up s then
    { s with agent_capacity := Dict.mapEntries (fun e => Int.tdiv (3 * e.2) 2) s.agent_capacity }
  else if should_scale_down s then
    { s with agent_capacity := Dict.mapEntries (fun e => max (Dict.getD s.agent_allocation e.1 0 + 2) (Int.tdiv (7 * e.2) 10)) s.agent_capacity }
  else
    s

/-- The allocation loop inside `assign_task`: `allocate_agent` per entry,
its boolean result discarded (as the Python code does). -/
def allocLoop (required : Dict) (s : Balancer) : Balancer :=
  required.foldl (fun st e => (allocate_agent st e.1 e.2).2) s

/-- `assign_task`. -/
def assign_task (s : Balancer) (task_name : String) (required_agents : Dict) :
    Bool × Balancer :=
  let can_allocate := required_agents.all fun e =>
    decide (e.2 ≤ get_available_agents s e.1)
  if can_allocate then
    let s' := allocLoop required_agents s
    (true, { s' with task_queue := s'.task_queue ++ [⟨task_name, required_agents, "in_progress"⟩] })
  else
    (false, s)

/-- The release loop inside `complete_task`. -/
def releaseLoop (agents : Dict) (s : Balancer) : Balancer :=
  agents.foldl (fun st e => release_agent st e.1 e.2) s

/-- `complete_task`: find the first live task with the given name; if found,
release its reservation, mark it completed, move it to history and drop it
from the queue; otherwise do nothing. -/
def complete_task (s : Balancer) (task_name : String) : Balancer :=
  match s.task_queue.find? (fun t => t.name == task_name) with
  | none => s
  | some task =>
    let s' := releaseLoop task.agents s
    { s' with
      task_queue := s'.task_queue.eraseP (fun t => t.name == task_name)
      completed_tasks :=
        s'.completed_tasks ++ [{ task with status := "completed" }] }

/-! ### Derived predicates and concrete states used by the development -/

/-- The spec's formula for `Utilization()`:
`sum(allocated) / TotalCapacity() * 100`, defined as 0 when the total
capacity is 0. -/
def utilization_spec_formula (s : Balancer) : ℚ :=
  if get_total_capacity s = 0 then 0
  else (Dict.sumVals s.agent_allocation : ℚ) / (get_total_capacity s : ℚ) * 100

/-- The spec invariant: `0 ≤ allocated[p] ≤ capacity[p]` for every pool
name (values read with default 0, matching the unknown-pool semantics). -/
def CapInv (s : Balancer) : Prop :=
  ∀ p, 0 ≤ Dict.getD s.agent_allocation p 0 ∧
    Dict.getD s.agent_allocation p 0 ≤ Dict.getD s.agent_capacity p 0

/-- A concrete balancer used by witnesses: one pool of capacity 10, with
9 agents allocated, auto-scaling enabled. -/
def demoState : Balancer :=
  { agent_capacity := [("a", 10)]
    agent_allocation := [("a", 9)]
    auto_scaling_ready := true
    task_queue := []
    completed_tasks := [] }

/-- A concrete balancer used by the C7 witness: one pool of capacity 20
with a single agent allocated (5% utilization). -/
def demoStateLow : Balancer :=
  { agent_capacity := [("a", 20)]
    agent_allocation := [("a", 1)]
    auto_scaling_ready := true
    task_queue := []
    completed_tasks := [] }

/-- All states reachable from a freshly constructed balancer by task
assignment (with positive, duplicate-free request maps, as Python dicts
are) and task completion. -/
inductive Reachable : Balancer → Prop
  | init (caps : Dict) (ready : Bool) : Reachable (Balancer.init caps ready)
  | assign (s : Balancer) (n : String) (R : Dict) :
      Reachable s → (∀ e ∈ R, 0 < e.2) → (Dict.keys R).Nodup →
      Reachable (assign_task s n R).2
  | complete (s : Balancer) (n : String) :
      Reachable s → Reachable (complete_task s n)

/-- Every live task carries a positive, duplicate-free reservation map. -/
def TasksWF (s : Balancer) : Prop :=
  ∀ t ∈ s.task_queue, (∀ e ∈ t.agents, 0 < e.2) ∧ (Dict.keys t.agents).Nodup

/-- The ledger equals, pool by pool, the sum of live reservations. -/
def LedgerEq (s : Balancer) : Prop :=
  ∀ p, Dict.getD s.agent_allocation p 0 =
    (s.task_queue.map fun t => Dict.getD t.agents p 0).sum

/-! ### Dictionary lemmas -/

theorem Dict.getD_set (d : Dict) (k : String) (v : Int) (p : String) (w : Int) :
    Dict.getD (Dict.set d k v) p w = if p = k then v else Dict.getD d p w := by
  by_cases hpk : p = k
  · subst hpk
    rw [if_pos rfl]
    induction d with
    | nil => simp [Dict.set, Dict.getD]
    | cons e d ih =>
      by_cases he : e.1 = p
      · simp [Dict.set, he, Dict.getD]
      · simp [Dict.set, he, Dict.getD, ih]
  · rw [if_neg hpk]
    have hkp : ¬ k = p := fun h => hpk h.symm
    induction d with
    | nil => simp [Dict.set, Dict.getD, hkp]
    | cons e d ih =>
      by_cases he : e.1 = k
      · have hep : ¬ e.1 = p := fun h => hkp (he ▸ h)
        simp [Dict.set, he, Dict.getD, hkp, hep]
      · by_cases hep : e.1 = p
        · simp [Dict.set, he, Dict.getD, hep, hpk]
        · simp [Dict.set, he, Dict.getD, hep, ih]

theorem Dict.getD_of_not_mem_keys (d : Dict) (p : String) (w : Int)
    (h : p ∉ Dict.keys d) :
    Dict.getD d p w = w := by
  induction d with
  | nil => rfl
  | cons e d ih =>
    simp only [Dict.keys, List.map_cons, List.mem_cons, not_or] at h
    have hne : ¬ e.1 = p := fun hh => h.1 hh.symm
    simp only [Dict.getD, if_neg hne]
    exact ih h.2

theorem Dict.getD_mapEntries (f : String × Int → Int) (d : Dict) (p : String) :
    Dict.getD (Dict.mapEntries f d) p 0 =
      if p ∈ Dict.keys d then f (p, Dict.getD d p 0) else 0 := by
  induction d with
  | nil => simp [Dict.mapEntries, Dict.getD, Dict.keys]
  | cons e d ih =>
    by_cases he : e.1 = p
    · subst he
      have h1 : Dict.mapEntries f (e :: d) = (e.1, f e) :: Dict.mapEntries f d := by
        simp [Dict.mapEntries]
      have h2 : Dict.getD ((e.1, f e) :: Dict.mapEntries f d) e.1 0 = f e := by
        rw [Dict.getD, if_pos rfl]
      have h3 : e.1 ∈ Dict.keys (e :: d) := by simp [Dict.keys]
      have h4 : Dict.getD (e :: d) e.1 0 = e.2 := by rw [Dict.getD, if_pos rfl]
      rw [h1, h2, if_pos h3, h4]
    · have hne : ¬ p = e.1 := fun hh => he hh.symm
      have h1 : Dict.mapEntries f (e :: d) = (e.1, f e) :: Dict.mapEntries f d := by
        simp [Dict.mapEntries]
      have h2 : Dict.getD ((e.1, f e) :: Dict.mapEntries f d) p 0
          = Dict.getD (Dict.mapEntries f d) p 0 := by
        rw [Dict.getD, if_neg he]
      have h3 : (p ∈ Dict.keys (e :: d)) = (p ∈ Dict.keys d) := by
        simp [Dict.keys, hne]
      have h4 : Dict.getD (e :: d) p 0 = Dict.getD d p 0 := by
        rw [Dict.getD, if_neg he]
      rw [h1, h2, ih]
      simp only [h3, h4]

theorem Dict.mem_of_mem_keys (d : Dict) (p : String)
    (h : p ∈ Dict.keys d) :
    (p, Dict.getD d p 0) ∈ d := by
  induction d with
  | nil => simp [Dict.keys] at h
  | cons e d ih =>
    by_cases he : e.1 = p
    · subst he
      simp [Dict.getD]
    · have hne : ¬ p = e.1 := fun hh => he hh.symm
      simp only [Dict.keys, List.map_cons, List.mem_cons] at h
      rcases h with h | h
      · exact absurd h hne
      · simp only [Dict.getD, if_neg he]
        exact List.mem_cons_of_mem _ (ih h)

theorem Dict.getD_of_mem_nodup (d : Dict) (e : String × Int)
    (hnd : (Dict.keys d).Nodup) (he : e ∈ d) :
    Dict.getD d e.1 0 = e.2 := by
  induction d with
  | nil => simp at he
  | cons a d ih =>
    simp only [Dict.keys, List.map_cons, List.nodup_cons] at hnd
    rcases List.mem_cons.mp he with h | h
    · subst h
      simp [Dict.getD]
    · have hne : ¬ a.1 = e.1 := by
        intro hh
        exact hnd.1 (hh ▸ List.mem_map_of_mem Prod.fst h)
      simp only [Dict.getD, if_neg hne]
      exact ih hnd.2 h

/-! ### Operation lemmas -/

theorem allocate_agent_snd (s : Balancer) (t : String) (c : Int) :
    (allocate_agent s t c).2 =
      if c ≤ get_available_agents s t then
        { s with agent_allocation := Dict.set s.agent_allocation t (Dict.getD s.agent_allocation t 0 + c) }
      else s := by
  rw [allocate_agent]
  split_ifs <;> rfl

theorem allocLoop_cons (e : String × Int) (R : Dict) (s : Balancer) :
    allocLoop (e :: R) s = allocLoop R (allocate_agent s e.1 e.2).2 := rfl

theorem releaseLoop_cons (e : String × Int) (d : Dict) (s : Balancer) :
    releaseLoop (e :: d) s = releaseLoop d (release_agent s e.1 e.2) := rfl

theorem allocate_agent_fields (s : Balancer) (t : String) (c : Int) :
    (allocate_agent s t c).2.agent_capacity = s.agent_capacity ∧
    (allocate_agent s t c).2.auto_scaling_ready = s.auto_scaling_ready ∧
    (allocate_agent s t c).2.task_queue = s.task_queue ∧
    (allocate_agent s t c).2.completed_tasks = s.completed_tasks := by
  rw [allocate_agent_snd]
  split_ifs <;> exact ⟨rfl, rfl, rfl, rfl⟩

theorem allocLoop_fields (R : Dict) (s : Balancer) :
    (allocLoop R s).agent_capacity = s.agent_capacity ∧
    (allocLoop R s).auto_scaling_ready = s.auto_scaling_ready ∧
    (allocLoop R s).task_queue = s.task_queue ∧
    (allocLoop R s).completed_tasks = s.completed_tasks := by
  induction R generalizing s with
  | nil => exact ⟨rfl, rfl, rfl, rfl⟩
  | cons e R ih =>
    rw [allocLoop_cons]
    obtain ⟨h1, h2, h3, h4⟩ := ih (allocate_agent s e.1 e.2).2
    obtain ⟨g1, g2, g3, g4⟩ := allocate_agent_fields s e.1 e.2
    exact ⟨h1.trans g1, h2.trans g2, h3.trans g3, h4.trans g4⟩

theorem releaseLoop_fields (d : Dict) (s : Balancer) :
    (releaseLoop d s).agent_capacity = s.agent_capacity ∧
    (releaseLoop d s).auto_scaling_ready = s.auto_scaling_ready ∧
    (releaseLoop d s).task_queue = s.task_queue ∧
    (releaseLoop d s).completed_tasks = s.completed_tasks := by
  induction d generalizing s with
  | nil => exact ⟨rfl, rfl, rfl, rfl⟩
  | cons e d ih =>
    rw [releaseLoop_cons]
    exact ih (release_agent s e.1 e.2)

theorem release_agent_getD (s : Balancer) (t : String) (c : Int) (p : String) :
    Dict.getD (release_agent s t c).agent_allocation p 0 =
      if p = t then max 0 (Dict.getD s.agent_allocation t 0 - c)
      else Dict.getD s.agent_allocation p 0 := by
  rw [release_agent]
  exact Dict.getD_set _ _ _ _ _

theorem allocLoop_getD (R : Dict) (s : Balancer)
    (hnd : (Dict.keys R).Nodup)
    (hav : ∀ e ∈ R, e.2 ≤ get_available_agents s e.1) (p : String) :
    Dict.getD (allocLoop R s).agent_allocation p 0 =
      Dict.getD s.agent_allocation p 0 + Dict.getD R p 0 := by
  induction R generalizing s with
  | nil => simp [allocLoop, Dict.getD]
  | cons e R ih =>
    simp only [Dict.keys, List.map_cons, List.nodup_cons] at hnd
    have hav0 : e.2 ≤ get_available_agents s e.1 := hav e (List.mem_cons_self e R)
    set s1 : Balancer :=
      { s with agent_allocation := Dict.set s.agent_allocation e.1 (Dict.getD s.agent_allocation e.1 0 + e.2) } with hs1
    have hstep : (allocate_agent s e.1 e.2).2 = s1 := by
      rw [allocate_agent_snd, if_pos hav0]
    have hget1 : ∀ q, Dict.getD s1.agent_allocation q 0 =
        if q = e.1 then Dict.getD s.agent_allocation e.1 0 + e.2
        else Dict.getD s.agent_allocation q 0 := by
      intro q
      exact Dict.getD_set _ _ _ _ _
    have hav1 : ∀ a ∈ R, a.2 ≤ get_available_agents s1 a.1 := by
      intro a ha
      have hne : ¬ a.1 = e.1 := by
        intro hh
        exact hnd.1 (hh ▸ List.mem_map_of_mem Prod.fst ha)
      have hcap : s1.agent_capacity = s.agent_capacity := rfl
      have havail : get_available_agents s1 a.1 = get_available_agents s a.1 := by
        rw [get_available_agents, get_available_agents, hcap, hget1 a.1, if_neg hne]
      rw [havail]
      exact hav a (List.mem_cons_of_mem e ha)
    rw [allocLoop_cons, hstep, ih s1 hnd.2 hav1, hget1 p]
    have hcons : Dict.getD (e :: R) p 0 = if e.1 = p then e.2 else Dict.getD R p 0 := rfl
    by_cases hp : p = e.1
    · have h0 : Dict.getD R p 0 = 0 := Dict.getD_of_not_mem_keys R p 0 (by rw [hp]; exact hnd.1)
      rw [if_pos hp, hcons, if_pos hp.symm, h0, hp]
      ring
    · have hne : ¬ e.1 = p := fun hh => hp hh.symm
      rw [if_neg hp, hcons, if_neg hne]

theorem releaseLoop_getD (d : Dict) (s : Balancer)
    (hnd : (Dict.keys d).Nodup) (p : String) :
    Dict.getD (releaseLoop d s).agent_allocation p 0 =
      if p ∈ Dict.keys d then
        max 0 (Dict.getD s.agent_allocation p 0 - Dict.getD d p 0)
      else Dict.getD s.agent_allocation p 0 := by
  induction d generalizing s with
  | nil => simp [releaseLoop, Dict.keys]
  | cons e d ih =>
    simp only [Dict.keys, List.map_cons, List.nodup_cons] at hnd
    rw [releaseLoop_cons, ih (release_agent s e.1 e.2) hnd.2]
    have hcons : Dict.getD (e :: d) p 0 = if e.1 = p then e.2 else Dict.getD d p 0 := rfl
    by_cases hp : p = e.1
    · have hnm : p ∉ Dict.keys d := by rw [hp]; exact hnd.1
      have hmm : p ∈ Dict.keys (e :: d) := by
        rw [hp]
        exact List.mem_cons_self _ _
      rw [if_neg hnm, release_agent_getD, if_pos hp, if_pos hmm, hcons, if_pos hp.symm, hp]
    · have hne : ¬ e.1 = p := fun hh => hp hh.symm
      rw [release_agent_getD, if_neg hp]
      by_cases hm : p ∈ Dict.keys d
      · have hmm : p ∈ Dict.keys (e :: d) := List.mem_cons_of_mem _ hm
        rw [if_pos hm, if_pos hmm, hcons, if_neg hne]
      · have hmm : p ∉ Dict.keys (e :: d) := by
          intro h
          rcases List.mem_cons.mp h with h1 | h1
          · exact hp h1
          · exact hm h1
        rw [if_neg hm, if_neg hmm]

/-! ### C1: atomic all-or-nothing reservation -/

theorem assign_task_snd_of_all (s : Balancer) (n : String) (R : Dict)
    (h : ∀ e ∈ R, e.2 ≤ get_available_agents s e.1) :
    assign_task s n R =
      (true, { allocLoop R s with
        task_queue := (allocLoop R s).task_queue ++ [⟨n, R, "in_progress"⟩] }) := by
  rw [assign_task]
  have hall : (R.all fun e => decide (e.2 ≤ get_available_agents s e.1)) = true := by
    rw [List.all_eq_true]
    intro e he
    exact decide_eq_true (h e he)
  simp only [hall, if_true]

theorem assign_task_snd_of_short (s : Balancer) (n : String) (R : Dict)
    (h : ∃ e ∈ R, get_available_agents s e.1 < e.2) :
    assign_task s n R = (false, s) := by
  rw [assign_task]
  have hall : (R.all fun e => decide (e.2 ≤ get_available_agents s e.1)) = false := by
    rw [List.all_eq_false]
    obtain ⟨e, he, hlt⟩ := h
    exact ⟨e, he, by simpa using not_le.mpr hlt⟩
  simp only [hall, if_false, Bool.false_eq_true]

/-- C1.  Atomic all-or-nothing reservation: on a request map (no duplicate
keys, as in a Python dict), if any requested pool is short, `assign_task`
returns `false` and leaves the state completely unchanged (no allocation
moves, no task appears); if every requested pool has enough availability,
it returns `true`, adds exactly the requested count to each requested
pool's allocation, leaves every other pool's allocation unchanged, and
appends exactly one new live task carrying the request. -/
theorem C1_assign_task_atomic (s : Balancer) (n : String) (R : Dict)
    (hnd : (Dict.keys R).Nodup) :
    ((∃ e ∈ R, get_available_agents s e.1 < e.2) →
        assign_task s n R = (false, s)) ∧
    ((∀ e ∈ R, e.2 ≤ get_available_agents s e.1) →
        (assign_task s n R).1 = true ∧
        (∀ e ∈ R, Dict.getD (assign_task s n R).2.agent_allocation e.1 0 =
            Dict.getD s.agent_allocation e.1 0 + e.2) ∧
        (∀ p, p ∉ Dict.keys R →
            Dict.getD (assign_task s n R).2.agent_allocation p 0 =
              Dict.getD s.agent_allocation p 0) ∧
        (assign_task s n R).2.task_queue =
            s.task_queue ++ [⟨n, R, "in_progress"⟩] ∧
        (assign_task s n R).2.agent_capacity = s.agent_capacity ∧
        (assign_task s n R).2.completed_tasks = s.completed_tasks) := by
  constructor
  · exact assign_task_snd_of_short s n R
  · intro hav
    rw [assign_task_snd_of_all s n R hav]
    obtain ⟨hcap, _, hq, hdone⟩ := allocLoop_fields R s
    refine ⟨rfl, ?_, ?_, ?_, hcap, hdone⟩
    · intro e he
      have := allocLoop_getD R s hnd hav e.1
      rw [this, Dict.getD_of_mem_nodup R e hnd he]
    · intro p hp
      rw [allocLoop_getD R s hnd hav p, Dict.getD_of_not_mem_keys R p 0 hp]
      ring
    · rw [hq]

/-- Witness for C1: the spec scenario with capacities research 12 /
development 9 and a request of 3 + 2; the call succeeds and the two
allocations become 3 and 2. -/
theorem C1_witness :
    (assign_task (Balancer.init [("research_agents", 12), ("development_agents", 9)] true) "T1"
        [("research_agents", 3), ("development_agents", 2)]).1 = true ∧
    Dict.getD (assign_task (Balancer.init [("research_agents", 12), ("development_agents", 9)] true) "T1"
        [("research_agents", 3), ("development_agents", 2)]).2.agent_allocation "research_agents" 0 = 3 ∧
    Dict.getD (assign_task (Balancer.init [("research_agents", 12), ("development_agents", 9)] true) "T1"
        [("research_agents", 3), ("development_agents", 2)]).2.agent_allocation "development_agents" 0 = 2 := by
  have h := (C1_assign_task_atomic
    (Balancer.init [("research_agents", 12), ("development_agents", 9)] true) "T1"
    [("research_agents", 3), ("development_agents", 2)] (by decide)).2 (by decide)
  refine ⟨h.1, ?_, ?_⟩
  · have := h.2.1 ("research_agents", 3) (by decide)
    rw [this]
    decide
  · have := h.2.1 ("development_agents", 2) (by decide)
    rw [this]
    decide

/-! ### C10: empty request map -/

/-- C10.  An empty request map always succeeds: the all-entries check is
vacuously true, no allocation changes, and one new live task with an empty
reservation is appended. -/
theorem C10_assign_empty_request (s : Balancer) (n : String) :
    assign_task s n [] =
      (true, { s with task_queue := s.task_queue ++ [⟨n, [], "in_progress"⟩] }) := rfl

/-! ### C9: completing an unknown name -/

/-- C9.  If no live task carries the given name, `complete_task` returns
the state unchanged (allocations, live tasks and history included) and
raises no error. -/
theorem C9_complete_task_unknown_noop (s : Balancer) (n : String)
    (h : ∀ t ∈ s.task_queue, t.name ≠ n) :
    complete_task s n = s := by
  rw [complete_task]
  have hnone : s.task_queue.find? (fun t => t.name == n) = none := by
    rw [List.find?_eq_none]
    intro t ht
    simpa using h t ht
  rw [hnone]

/-- Witness for C9: completing `"ghost"` on a freshly initialised balancer
changes nothing. -/
theorem C9_witness :
    complete_task (Balancer.init [("research_agents", 12)] true) "ghost" =
      Balancer.init [("research_agents", 12)] true :=
  C9_complete_task_unknown_noop (Balancer.init [("research_agents", 12)] true) "ghost"
    (by intro t ht; simp [Balancer.init] at ht)

/-! ### C8: available count -/

/-- C8.  `get_available_agents` returns `max 0 (capacity − allocated)`
(both read with default 0), and a pool name absent from the capacity table
yields 0 rather than an error — given the data-model fact that allocation
values are nonnegative. -/
theorem C8_available_agents (s : Balancer) (p : String)
    (halloc : 0 ≤ Dict.getD s.agent_allocation p 0) :
    get_available_agents s p =
      max 0 (Dict.getD s.agent_capacity p 0 - Dict.getD s.agent_allocation p 0) ∧
    (p ∉ Dict.keys s.agent_capacity → get_available_agents s p = 0) := by
  refine ⟨rfl, ?_⟩
  intro hp
  rw [get_available_agents, Dict.getD_of_not_mem_keys _ _ _ hp]
  exact max_eq_left (by omega)

/-- Witness for C8: querying the unknown pool `"b"` on a balancer that only
knows `"a"` yields 0. -/
theorem C8_witness :
    get_available_agents (Balancer.init [("a", 5)] true) "b" = 0 :=
  (C8_available_agents (Balancer.init [("a", 5)] true) "b" (by decide)).2 (by decide)

/-! ### C5: utilization -/

/-- C5.  `calculate_utilization` computes the spec formula
(total allocation over total capacity, times 100) and returns exactly 0
when the total capacity is 0, with no division-by-zero fault. -/
theorem C5_calculate_utilization (s : Balancer) :
    calculate_utilization s = utilization_spec_formula s ∧
    (get_total_capacity s = 0 → calculate_utilization s = 0) := by
  refine ⟨rfl, ?_⟩
  intro h
  simp [calculate_utilization, h]

/-- Witness for C5: a balancer with no pools has total capacity 0 and
utilization 0. -/
theorem C5_witness :
    calculate_utilization (Balancer.init [] true) = 0 :=
  (C5_calculate_utilization (Balancer.init [] true)).2 (by decide)

/-! ### C3: assign/complete round-trip -/

theorem init_alloc_getD (caps : Dict) (ready : Bool) (p : String) :
    Dict.getD (Balancer.init caps ready).agent_allocation p 0 = 0 := by
  rw [show (Balancer.init caps ready).agent_allocation
      = Dict.mapEntries (fun _ => 0) caps from rfl, Dict.getD_mapEntries]
  split_ifs <;> rfl

theorem assign_task_success_av (s : Balancer) (n : String) (R : Dict)
    (h : (assign_task s n R).1 = true) :
    ∀ e ∈ R, e.2 ≤ get_available_agents s e.1 := by
  intro e he
  by_cases hall : (R.all fun e => decide (e.2 ≤ get_available_agents s e.1)) = true
  · exact of_decide_eq_true (List.all_eq_true.mp hall e he)
  · exfalso
    simp only [assign_task, Bool.not_eq_true] at h hall
    rw [hall] at h
    simp at h

/-- C3.  Assign/complete round-trip: starting from a state with a
nonnegative ledger whose live tasks do not already use the name, a
successful `assign_task` followed by `complete_task` of the same name
restores every pool's allocated value exactly (release reverses reserve). -/
theorem C3_assign_complete_roundtrip (s : Balancer) (n : String) (R : Dict)
    (hnd : (Dict.keys R).Nodup)
    (halloc : ∀ p, 0 ≤ Dict.getD s.agent_allocation p 0)
    (hfresh : ∀ t ∈ s.task_queue, t.name ≠ n)
    (hsucc : (assign_task s n R).1 = true) :
    ∀ p, Dict.getD (complete_task (assign_task s n R).2 n).agent_allocation p 0 =
      Dict.getD s.agent_allocation p 0 := by
  intro p
  have hav := assign_task_success_av s n R hsucc
  rw [assign_task_snd_of_all s n R hav]
  set s2 : Balancer := { allocLoop R s with
    task_queue := (allocLoop R s).task_queue ++ [⟨n, R, "in_progress"⟩] } with hs2
  have hqueue : s2.task_queue = s.task_queue ++ [⟨n, R, "in_progress"⟩] := by
    have h0 : s2.task_queue = (allocLoop R s).task_queue ++ [⟨n, R, "in_progress"⟩] := rfl
    rw [h0, (allocLoop_fields R s).2.2.1]
  have hfind : s2.task_queue.find? (fun t => t.name == n)
      = some ⟨n, R, "in_progress"⟩ := by
    rw [hqueue, List.find?_append]
    have h1 : s.task_queue.find? (fun t => t.name == n) = none := by
      rw [List.find?_eq_none]
      intro t ht
      simpa using hfresh t ht
    rw [h1]
    simp [List.find?]
  rw [complete_task, hfind]
  show Dict.getD (releaseLoop R s2).agent_allocation p 0
      = Dict.getD s.agent_allocation p 0
  have hallocp : Dict.getD s2.agent_allocation p 0 =
      Dict.getD s.agent_allocation p 0 + Dict.getD R p 0 := by
    have h0 : s2.agent_allocation = (allocLoop R s).agent_allocation := rfl
    rw [h0, allocLoop_getD R s hnd hav p]
  rw [releaseLoop_getD R s2 hnd p, hallocp]
  by_cases hm : p ∈ Dict.keys R
  · rw [if_pos hm]
    have h1 : Dict.getD s.agent_allocation p 0 + Dict.getD R p 0 - Dict.getD R p 0
        = Dict.getD s.agent_allocation p 0 := by ring
    rw [h1]
    exact max_eq_right (halloc p)
  · rw [if_neg hm, Dict.getD_of_not_mem_keys R p 0 hm]
    ring

/-- Witness for C3: assigning and completing `"T1"` on a fresh balancer
leaves the research-pool allocation at 0. -/
theorem C3_witness :
    Dict.getD (complete_task
      (assign_task (Balancer.init [("research_agents", 12), ("development_agents", 9)] true)
        "T1" [("research_agents", 3), ("development_agents", 2)]).2
      "T1").agent_allocation "research_agents" 0 = 0 := by
  have h := C3_assign_complete_roundtrip
    (Balancer.init [("research_agents", 12), ("development_agents", 9)] true)
    "T1" [("research_agents", 3), ("development_agents", 2)]
    (by decide)
    (fun p => by rw [init_alloc_getD])
    (by intro t ht; simp [Balancer.init] at ht)
    (by decide) "research_agents"
  rw [h]
  decide

/-! ### C2: capacity invariant preservation -/

theorem allocate_agent_capinv (s : Balancer) (t : String) (c : Int)
    (hc : 0 < c) (hs : CapInv s) : CapInv (allocate_agent s t c).2 := by
  rw [allocate_agent_snd]
  split_ifs with hcond
  · intro p
    have hcapeq : ({ s with agent_allocation := Dict.set s.agent_allocation t (Dict.getD s.agent_allocation t 0 + c) } : Balancer).agent_capacity = s.agent_capacity := rfl
    have halloceq : ({ s with agent_allocation := Dict.set s.agent_allocation t (Dict.getD s.agent_allocation t 0 + c) } : Balancer).agent_allocation = Dict.set s.agent_allocation t (Dict.getD s.agent_allocation t 0 + c) := rfl
    rw [hcapeq, halloceq, Dict.getD_set]
    by_cases hp : p = t
    · subst hp
      rw [if_pos rfl]
      rw [get_available_agents] at hcond
      have h1 := hs p
      omega
    · rw [if_neg hp]
      exact hs p
  · exact hs

theorem release_agent_capinv (s : Balancer) (t : String) (c : Int)
    (hc : 0 ≤ c) (hs : CapInv s) : CapInv (release_agent s t c) := by
  intro p
  have hcapeq : (release_agent s t c).agent_capacity = s.agent_capacity := rfl
  rw [hcapeq, release_agent_getD]
  by_cases hp : p = t
  · subst hp
    rw [if_pos rfl]
    have h1 := hs p
    omega
  · rw [if_neg hp]
    exact hs p

theorem allocLoop_capinv (R : Dict) (s : Balancer)
    (hpos : ∀ e ∈ R, 0 < e.2) (hs : CapInv s) : CapInv (allocLoop R s) := by
  induction R generalizing s with
  | nil => exact hs
  | cons e R ih =>
    rw [allocLoop_cons]
    exact ih (allocate_agent s e.1 e.2).2
      (fun a ha => hpos a (List.mem_cons_of_mem e ha))
      (allocate_agent_capinv s e.1 e.2 (hpos e (List.mem_cons_self e R)) hs)

theorem releaseLoop_capinv (d : Dict) (s : Balancer)
    (hpos : ∀ e ∈ d, 0 ≤ e.2) (hs : CapInv s) : CapInv (releaseLoop d s) := by
  induction d generalizing s with
  | nil => exact hs
  | cons e d ih =>
    rw [releaseLoop_cons]
    exact ih (release_agent s e.1 e.2)
      (fun a ha => hpos a (List.mem_cons_of_mem e ha))
      (release_agent_capinv s e.1 e.2 (hpos e (List.mem_cons_self e d)) hs)

theorem assign_task_capinv (s : Balancer) (n : String) (R : Dict)
    (hpos : ∀ e ∈ R, 0 < e.2) (hs : CapInv s) :
    CapInv (assign_task s n R).2 := by
  by_cases hall : (R.all fun e => decide (e.2 ≤ get_available_agents s e.1)) = true
  · have hav : ∀ e ∈ R, e.2 ≤ get_available_agents s e.1 :=
      fun e he => of_decide_eq_true (List.all_eq_true.mp hall e he)
    rw [assign_task_snd_of_all s n R hav]
    intro p
    exact allocLoop_capinv R s hpos hs p
  · have hfail : assign_task s n R = (false, s) := by
      simp only [assign_task]
      rw [Bool.not_eq_true] at hall
      rw [hall]
      simp
    rw [hfail]
    exact hs

theorem complete_task_capinv (s : Balancer) (n : String)
    (hq : ∀ t ∈ s.task_queue, ∀ e ∈ t.agents, 0 ≤ e.2) (hs : CapInv s) :
    CapInv (complete_task s n) := by
  rw [complete_task]
  cases hfind : s.task_queue.find? (fun t => t.name == n) with
  | none => exact hs
  | some task =>
    have htask : task ∈ s.task_queue := List.mem_of_find?_eq_some hfind
    intro p
    exact releaseLoop_capinv task.agents s (hq task htask) hs p

theorem auto_scale_capinv (s : Balancer) (hs : CapInv s) :
    CapInv (auto_scale s) := by
  rw [auto_scale]
  split_ifs with h1 h2
  · intro p
    have hp := hs p
    refine ⟨hp.1, ?_⟩
    have hcapeq : ({ s with agent_capacity := Dict.mapEntries (fun e => Int.tdiv (3 * e.2) 2) s.agent_capacity } : Balancer).agent_capacity = Dict.mapEntries (fun e => Int.tdiv (3 * e.2) 2) s.agent_capacity := rfl
    rw [hcapeq, Dict.getD_mapEntries]
    by_cases hm : p ∈ Dict.keys s.agent_capacity
    · rw [if_pos hm]
      have hc : 0 ≤ Dict.getD s.agent_capacity p 0 := le_trans hp.1 hp.2
      have ht : Dict.getD s.agent_capacity p 0
          ≤ Int.tdiv (3 * Dict.getD s.agent_capacity p 0) 2 := by
        rw [Int.tdiv_eq_ediv (by omega) (by norm_num),
          Int.le_ediv_iff_mul_le (by norm_num)]
        omega
      exact le_trans hp.2 ht
    · rw [if_neg hm]
      have h0 := hp.2
      rw [Dict.getD_of_not_mem_keys _ _ _ hm] at h0
      exact h0
  · intro p
    have hp := hs p
    refine ⟨hp.1, ?_⟩
    have hcapeq : ({ s with agent_capacity := Dict.mapEntries (fun e => max (Dict.getD s.agent_allocation e.1 0 + 2) (Int.tdiv (7 * e.2) 10)) s.agent_capacity } : Balancer).agent_capacity = Dict.mapEntries (fun e => max (Dict.getD s.agent_allocation e.1 0 + 2) (Int.tdiv (7 * e.2) 10)) s.agent_capacity := rfl
    rw [hcapeq, Dict.getD_mapEntries]
    by_cases hm : p ∈ Dict.keys s.agent_capacity
    · rw [if_pos hm]
      have h0 : Dict.getD s.agent_allocation p 0 ≤ Dict.getD s.agent_allocation p 0 + 2 := by omega
      exact le_trans h0 (le_max_left _ _)
    · rw [if_neg hm]
      have h0 := hp.2
      rw [Dict.getD_of_not_mem_keys _ _ _ hm] at h0
      exact h0
  · exact hs

/-- C2.  Every single operation preserves the capacity invariant
`0 ≤ allocated[p] ≤ capacity[p]` (for all pool names), under the spec's
data-model conditions: reservation counts passed to `assign_task` and
`allocate_agent` are positive, counts passed to `release_agent` are
nonnegative, and live tasks carry nonnegative reservation counts. -/
theorem C2_operations_preserve_invariant (s : Balancer)
    (hs : CapInv s)
    (hq : ∀ t ∈ s.task_queue, ∀ e ∈ t.agents, 0 ≤ e.2) :
    (∀ n R, (∀ e ∈ R, 0 < e.2) → CapInv (assign_task s n R).2) ∧
    (∀ n, CapInv (complete_task s n)) ∧
    (∀ t c, 0 < c → CapInv (allocate_agent s t c).2) ∧
    (∀ t c, 0 ≤ c → CapInv (release_agent s t c)) ∧
    CapInv (auto_scale s) :=
  ⟨fun n R hpos => assign_task_capinv s n R hpos hs,
   fun n => complete_task_capinv s n hq hs,
   fun t c hc => allocate_agent_capinv s t c hc hs,
   fun t c hc => release_agent_capinv s t c hc hs,
   auto_scale_capinv s hs⟩

theorem demoState_capinv : CapInv demoState := by
  intro p
  simp only [demoState, Dict.getD]
  split_ifs <;> norm_num

/-- Witness for C2: releasing one agent from the demo state keeps the
single pool's allocation within its capacity. -/
theorem C2_witness :
    0 ≤ Dict.getD (release_agent demoState "a" 1).agent_allocation "a" 0 ∧
    Dict.getD (release_agent demoState "a" 1).agent_allocation "a" 0 ≤
      Dict.getD (release_agent demoState "a" 1).agent_capacity "a" 0 :=
  (C2_operations_preserve_invariant demoState demoState_capinv
    (by intro t ht; simp [demoState] at ht)).2.2.2.1 "a" 1 (by norm_num) "a"

/-! ### C6: scale-up -/

/-- C6.  The scale-up branch fires exactly when utilization is strictly
above 80 and the auto-scaling flag is enabled; when it fires, every pool's
capacity is multiplied by 1.5 and truncated toward zero
(`int(c * 1.5) = tdiv (3c) 2`); allocations are never changed by
`auto_scale`; and when neither branch condition holds the state is
untouched. -/
theorem C6_scale_up_characterization (s : Balancer) :
    (should_scale_up s = true ↔
      (80 < calculate_utilization s ∧ s.auto_scaling_ready = true)) ∧
    (auto_scale s).agent_allocation = s.agent_allocation ∧
    (should_scale_up s = true →
      ∀ p ∈ Dict.keys s.agent_capacity,
        Dict.getD (auto_scale s).agent_capacity p 0 =
          Int.tdiv (3 * Dict.getD s.agent_capacity p 0) 2) ∧
    (should_scale_up s = false → should_scale_down s = false →
      auto_scale s = s) := by
  refine ⟨?_, ?_, ?_, ?_⟩
  · rw [should_scale_up]
    simp
  · rw [auto_scale]
    split_ifs <;> rfl
  · intro hup p hm
    rw [auto_scale, if_pos hup]
    have hcapeq : ({ s with agent_capacity := Dict.mapEntries (fun e => Int.tdiv (3 * e.2) 2) s.agent_capacity } : Balancer).agent_capacity = Dict.mapEntries (fun e => Int.tdiv (3 * e.2) 2) s.agent_capacity := rfl
    rw [hcapeq, Dict.getD_mapEntries, if_pos hm]
  · intro hup hdown
    rw [auto_scale, if_neg (by simp [hup]), if_neg (by simp [hdown])]

/-- Witness for C6: the spec scenario — capacity 10, allocated 9 (90%
utilization), flag enabled; scale-up fires and the new capacity is 15. -/
theorem C6_witness :
    should_scale_up demoState = true ∧
    Dict.getD (auto_scale demoState).agent_capacity "a" 0 = 15 := by
  have h := C6_scale_up_characterization demoState
  have hup : should_scale_up demoState = true := by
    rw [h.1]
    refine ⟨?_, rfl⟩
    norm_num [calculate_utilization, get_total_capacity, Dict.sumVals, demoState]
  refine ⟨hup, ?_⟩
  have h2 := h.2.2.1 hup "a" (by simp [demoState, Dict.keys])
  rw [h2]
  decide

/-! ### C7: scale-down -/

/-- C7.  When the scale-up branch does not fire, the scale-down branch
fires exactly when utilization is strictly below 30, regardless of the
auto-scaling flag; it sets every pool's capacity to
`max(allocated + 2, floor(capacity * 0.7))` (for nonnegative capacities
the code's truncation agrees with the floor), which always leaves
`allocated ≤ capacity`, and never changes allocations. -/
theorem C7_scale_down_characterization (s : Balancer)
    (hcap : ∀ p, 0 ≤ Dict.getD s.agent_capacity p 0)
    (hup : should_scale_up s = false) :
    (should_scale_down s = true ↔ calculate_utilization s < 30) ∧
    (should_scale_down s = true →
      (∀ p ∈ Dict.keys s.agent_capacity,
        Dict.getD (auto_scale s).agent_capacity p 0 =
          max (Dict.getD s.agent_allocation p 0 + 2)
            (7 * Dict.getD s.agent_capacity p 0 / 10)) ∧
      (∀ p ∈ Dict.keys s.agent_capacity,
        Dict.getD s.agent_allocation p 0 ≤
          Dict.getD (auto_scale s).agent_capacity p 0) ∧
      (auto_scale s).agent_allocation = s.agent_allocation) := by
  have hcapeq : ({ s with agent_capacity := Dict.mapEntries (fun e => max (Dict.getD s.agent_allocation e.1 0 + 2) (Int.tdiv (7 * e.2) 10)) s.agent_capacity } : Balancer).agent_capacity = Dict.mapEntries (fun e => max (Dict.getD s.agent_allocation e.1 0 + 2) (Int.tdiv (7 * e.2) 10)) s.agent_capacity := rfl
  refine ⟨?_, ?_⟩
  · rw [should_scale_down]
    simp
  · intro hdown
    have hscale : auto_scale s = { s with agent_capacity := Dict.mapEntries (fun e => max (Dict.getD s.agent_allocation e.1 0 + 2) (Int.tdiv (7 * e.2) 10)) s.agent_capacity } := by
      rw [auto_scale, if_neg (by simp [hup]), if_pos hdown]
    refine ⟨?_, ?_, ?_⟩
    · intro p hm
      rw [hscale, hcapeq, Dict.getD_mapEntries, if_pos hm]
      rw [Int.tdiv_eq_ediv (by have := hcap p; omega) (by norm_num)]
    · intro p hm
      rw [hscale, hcapeq, Dict.getD_mapEntries, if_pos hm]
      exact le_trans
        (show Dict.getD s.agent_allocation p 0
            ≤ Dict.getD s.agent_allocation p 0 + 2 by omega)
        (le_max_left _ _)
    · rw [hscale]

/-- Witness for C7: the spec scenario — capacity 20, allocated 1;
scale-down fires and the new capacity is `max(1+2, floor(20*0.7)) = 14`. -/
theorem C7_witness :
    should_scale_down demoStateLow = true ∧
    Dict.getD (auto_scale demoStateLow).agent_capacity "a" 0 = 14 := by
  have h := C7_scale_down_characterization demoStateLow
    (by intro p; simp [demoStateLow, Dict.getD]; split_ifs <;> norm_num)
    (by norm_num [should_scale_up, calculate_utilization, get_total_capacity, Dict.sumVals, demoStateLow])
  have hdown : should_scale_down demoStateLow = true := h.1.mpr
    (by norm_num [calculate_utilization, get_total_capacity, Dict.sumVals, demoStateLow])
  have h2 := (h.2 hdown).1 "a" (by simp [demoStateLow, Dict.keys])
  refine ⟨hdown, ?_⟩
  rw [h2]
  decide

/-! ### C4: the ledger is a derived aggregate of live reservations -/

theorem Dict.getD_nonneg_of_pos (d : Dict) (p : String)
    (h : ∀ e ∈ d, 0 < e.2) :
    0 ≤ Dict.getD d p 0 := by
  by_cases hm : p ∈ Dict.keys d
  · exact le_of_lt (h _ (Dict.mem_of_mem_keys d p hm))
  · rw [Dict.getD_of_not_mem_keys d p 0 hm]

theorem assign_task_snd_of_not_all (s : Balancer) (n : String) (R : Dict)
    (hall : ¬ (R.all fun e => decide (e.2 ≤ get_available_agents s e.1)) = true) :
    assign_task s n R = (false, s) := by
  simp only [assign_task]
  rw [Bool.not_eq_true] at hall
  rw [hall]
  simp

theorem sum_map_eraseP {α : Type} (l : List α) (pr : α → Bool) (f : α → Int)
    (x : α) (h : l.find? pr = some x) :
    ((l.eraseP pr).map f).sum = (l.map f).sum - f x := by
  induction l with
  | nil => simp at h
  | cons a l ih =>
    by_cases hp : pr a = true
    · rw [List.find?_cons_of_pos _ hp] at h
      have hax : a = x := by injection h
      rw [List.eraseP_cons_of_pos hp, hax, List.map_cons, List.sum_cons]
      ring
    · rw [List.find?_cons_of_neg _ (by simpa using hp)] at h
      rw [List.eraseP_cons_of_neg (by simpa using hp), List.map_cons,
        List.map_cons, List.sum_cons, List.sum_cons, ih h]
      ring

theorem complete_task_found (s : Balancer) (n : String) (task : Task)
    (hfind : s.task_queue.find? (fun t => t.name == n) = some task) :
    complete_task s n = { releaseLoop task.agents s with
      task_queue := s.task_queue.eraseP (fun t => t.name == n)
      completed_tasks :=
        s.completed_tasks ++ [{ task with status := "completed" }] } := by
  rw [complete_task, hfind]
  show ({ releaseLoop task.agents s with
    task_queue := (releaseLoop task.agents s).task_queue.eraseP (fun t => t.name == n)
    completed_tasks :=
      (releaseLoop task.agents s).completed_tasks ++ [{ task with status := "completed" }] } : Balancer) = _
  rw [(releaseLoop_fields task.agents s).2.2.1, (releaseLoop_fields task.agents s).2.2.2]

theorem reachable_wf (s : Balancer) (h : Reachable s) :
    TasksWF s ∧ LedgerEq s := by
  induction h with
  | init caps ready =>
    constructor
    · intro t ht
      simp [Balancer.init] at ht
    · intro p
      rw [init_alloc_getD, show (Balancer.init caps ready).task_queue = [] from rfl]
      simp
  | assign s n R hr hpos hnd ih =>
    by_cases hall : (R.all fun e => decide (e.2 ≤ get_available_agents s e.1)) = true
    · have hav : ∀ e ∈ R, e.2 ≤ get_available_agents s e.1 :=
        fun e he => of_decide_eq_true (List.all_eq_true.mp hall e he)
      rw [assign_task_snd_of_all s n R hav]
      have hq : ({ allocLoop R s with
          task_queue := (allocLoop R s).task_queue ++ [(Task.mk n R "in_progress")] } : Balancer).task_queue
          = s.task_queue ++ [(Task.mk n R "in_progress")] := by
        show (allocLoop R s).task_queue ++ [(Task.mk n R "in_progress")] = _
        rw [(allocLoop_fields R s).2.2.1]
      constructor
      · intro t ht
        have ht2 : t ∈ s.task_queue ++ [(Task.mk n R "in_progress")] := hq ▸ ht
        rcases List.mem_append.mp ht2 with h1 | h1
        · exact ih.1 t h1
        · have : t = (Task.mk n R "in_progress") := by simpa using h1
          rw [this]
          exact ⟨hpos, hnd⟩
      · intro p
        show Dict.getD (allocLoop R s).agent_allocation p 0 =
          (((allocLoop R s).task_queue ++ [(Task.mk n R "in_progress")]).map
            fun t => Dict.getD t.agents p 0).sum
        rw [(allocLoop_fields R s).2.2.1, allocLoop_getD R s hnd hav p,
          List.map_append, List.sum_append, ih.2 p]
        simp [List.sum_cons]
    · rw [assign_task_snd_of_not_all s n R hall]
      exact ih
  | complete s n hr ih =>
    cases hfind : s.task_queue.find? (fun t => t.name == n) with
    | none =>
      have hnoop : complete_task s n = s := by rw [complete_task, hfind]
      rw [hnoop]
      exact ih
    | some task =>
      have htask : task ∈ s.task_queue := List.mem_of_find?_eq_some hfind
      have hwf := ih.1 task htask
      rw [complete_task_found s n task hfind]
      constructor
      · intro t ht
        have ht2 : t ∈ s.task_queue.eraseP (fun t => t.name == n) := ht
        exact ih.1 t (List.mem_of_mem_eraseP ht2)
      · intro p
        show Dict.getD (releaseLoop task.agents s).agent_allocation p 0 =
          ((s.task_queue.eraseP (fun t => t.name == n)).map
            fun t => Dict.getD t.agents p 0).sum
        rw [releaseLoop_getD task.agents s hwf.2 p,
          sum_map_eraseP s.task_queue _ _ task hfind, ← ih.2 p]
        have hge : Dict.getD task.agents p 0 ≤ Dict.getD s.agent_allocation p 0 := by
          rw [ih.2 p]
          refine List.single_le_sum ?_ _
            (List.mem_map_of_mem (fun t => Dict.getD t.agents p 0) htask)
          intro x hx
          obtain ⟨t, ht, rfl⟩ := List.mem_map.mp hx
          exact Dict.getD_nonneg_of_pos t.agents p (ih.1 t ht).1
        by_cases hm : p ∈ Dict.keys task.agents
        · rw [if_pos hm]
          omega
        · rw [if_neg hm, Dict.getD_of_not_mem_keys task.agents p 0 hm]
          ring

/-- C4.  In every state reachable from an initial balancer (all
allocations zero, empty queue) by `assign_task` calls with positive
request counts and `complete_task` calls, each pool's allocated value is
exactly the sum of the live tasks' reservations for that pool: the ledger
is a derived aggregate of live reservations. -/
theorem C4_ledger_is_derived_aggregate (s : Balancer) (hr : Reachable s)
    (p : String) :
    Dict.getD s.agent_allocation p 0 =
      (s.task_queue.map fun t => Dict.getD t.agents p 0).sum :=
  (reachable_wf s hr).2 p

/-- Witness for C4: after one assignment on a fresh balancer, the pool's
allocation equals the sum of live reservations against it. -/
theorem C4_witness :
    Dict.getD (assign_task (Balancer.init [("a", 2)] true) "t"
        [("a", 1)]).2.agent_allocation "a" 0 =
      ((assign_task (Balancer.init [("a", 2)] true) "t"
        [("a", 1)]).2.task_queue.map fun t => Dict.getD t.agents "a" 0).sum :=
  C4_ledger_is_derived_aggregate _
    (Reachable.assign _ "t" _ (Reachable.init [("a", 2)] true)
      (by decide) (by decide)) "a"

end ALB
